import Mathlib

/-!
# A shallow embedding of the `routine` cooperative action sequencer

This file embeds the current variant of the engine (the `routine` package:
`Block`, `Routine`, and the `actions` package: `Wait`, `Timing`, `Gate`,
`GateOption`, `Collection`, `Label`) and proves properties of the step
algorithm, the playhead management, the gate commitment protocol and the
timed-callback chain.

Modelling conventions:
* Go `int` indices are `Int`; slice reads/writes out of range are modelled by
  `Option` results (`none` = runtime panic).
* `time.Time` is an `Int` (nanoseconds); `time.Now().After(u)` is the strict
  comparison `u < now`.  The zero `time.Time` (`IsZero`) is `Option.none`.
* The `Action` interface is populated by a small action language `ActKind`
  covering the leaf actions the engine's own code constructs: constant-flow
  functions, functions that call `Block.SetIndex` / `Block.JumpTo` during
  their own `Poll`, labels, and collections.  All of these have the no-op
  `Init` of `Function`/`Label`/`Collection`; the engine's calls to `Init` and
  `Poll` are recorded in an event trace so that "how many times was this
  action polled / initialized" is observable.
* `Block.update` in this variant calls itself recursively after a `FlowNext`
  poll; the Lean model uses explicit fuel, and claims are stated with enough
  fuel (or with an `= some _` hypothesis).
-/

namespace RoutinePkg

/-- `Flow` of the current variant: `FlowIdle`, `FlowNext`, `FlowFinish`. -/
inductive Flow where
  | idle
  | next
  | finish
deriving DecidableEq

/-- Engine events observed while stepping a `Block`: `poll i` means
`b.Actions[i].Poll(b)` was entered, `init i` means `b.Actions[i].Init(b)`
was called. -/
inductive Event where
  | poll (i : Int)
  | init (i : Int)
deriving DecidableEq

/-- The action language: the leaf `Action` implementations the claims are
about.  `flowConst f` is `actions.NewFunction(func(b) Flow { return f })`;
`setIdxThen i f` is a `Function` whose poll calls `block.SetIndex(i)` and then
returns `f`; `jumpThen l f` calls `block.JumpTo(l)` and returns `f`;
`label id` is `actions.NewLabel(id)`; `collection l` is an
`actions.Collection` holding `l`.  All of them have a no-op `Init`. -/
inductive ActKind where
  | flowConst (f : Flow)
  | setIdxThen (target : Int) (f : Flow)
  | jumpThen (lbl : Int) (f : Flow)
  | label (id : Int)
  | collection (acts : List ActKind)

/-- Go slice read `l[i]` with `int` index; `none` models the runtime panic on
an out-of-range index. -/
def getAt {α : Type} (l : List α) (i : Int) : Option α :=
  if i < 0 then none else l.get? i.toNat

/-- Go slice write `l[i] = a` (used at indices previously read, hence in
range; out-of-range writes are ignored here). -/
def setAt {α : Type} (l : List α) (i : Int) (a : α) : List α :=
  if i < 0 then l else l.set i.toNat a

/-- `Block` of the current variant (`routine.Block`).  The `routine`
back-pointer is not represented: no action in the modelled language reaches
sibling blocks. -/
structure Block where
  currentlyActive : Bool
  active : Bool
  currentFrame : Int
  id : Int
  actions : List ActKind
  index : Int
  indexChanged : Bool

/-- The clamping performed at the top of `Block.SetIndex`: negative indices
become `0`, indices past the end become `len(Actions)-1`. -/
def clampIdx (b : Block) (index : Int) : Int :=
  let i1 := if index < 0 then 0 else index
  if i1 > (b.actions.length : Int) - 1 then (b.actions.length : Int) - 1 else i1

/-- `Block.SetIndex`: clamp, and only if the clamped index differs from the
current one: set the index, call `Init` on the newly current action, reset
the frame counter, and raise the re-entrancy flag when the block is
`currentlyActive`. -/
def Block.setIndex (b : Block) (index : Int) : Option (Block × List Event) :=
  let i := clampIdx b index
  if b.index = i then some (b, [])
  else
    match getAt b.actions i with
    | none => none
    | some _ =>
        some ({ b with index := i, currentFrame := 0,
                       indexChanged := if b.currentlyActive then true else b.indexChanged },
              [Event.init i])

/-- The `ActionIdentifiable` capability: only `Label` exposes an `ID()`. -/
def actID : ActKind → Option Int
  | ActKind.label i => some i
  | _ => none

/-- The linear scan in `Block.JumpTo`: position of the first action exposing
an identity equal to the requested label. -/
def findLabelIdx (lbl : Int) : List ActKind → Option Nat
  | [] => none
  | a :: rest =>
      match actID a with
      | some i =>
          if i = lbl then some 0
          else (findLabelIdx lbl rest).map (· + 1)
      | none => (findLabelIdx lbl rest).map (· + 1)

/-- `Block.JumpTo`: scan for the label; on a hit, `SetIndex` to it and return
the index; on a miss return `-1` leaving the block untouched. -/
def Block.jumpTo (b : Block) (lbl : Int) : Option (Block × List Event × Int) :=
  match findLabelIdx lbl b.actions with
  | some i =>
      match Block.setIndex b (i : Int) with
      | none => none
      | some (b', ev) => some (b', ev, (i : Int))
  | none => some (b, [], -1)

/-- `Poll` of the modelled actions.  `Label.Poll` and `Collection.Poll`
return `FlowNext`; the function actions perform their block mutation (if
any) and return their constant flow. -/
def pollAct (a : ActKind) (b : Block) : Option (Block × List Event × Flow) :=
  match a with
  | ActKind.flowConst f => some (b, [], f)
  | ActKind.setIdxThen i f =>
      match Block.setIndex b i with
      | none => none
      | some (b', ev) => some (b', ev, f)
  | ActKind.jumpThen l f =>
      match Block.jumpTo b l with
      | none => none
      | some (b', ev, _) => some (b', ev, f)
  | ActKind.label _ => some (b, [], Flow.next)
  | ActKind.collection _ => some (b, [], Flow.next)

/-- The `FlowNext` branch of `Block.update` (lines 149-157 of the source):
increment the index unless the poll repositioned the block, and wrap to 0 and
deactivate when the index passed the end of the list. -/
def flowNextAdvance (b : Block) : Block :=
  let b1 := if b.indexChanged = false then { b with index := b.index + 1 } else b
  if b1.index > (b1.actions.length : Int) - 1 then
    { b1 with index := 0, active := false, currentlyActive := false }
  else b1

/-- `Block.update` with explicit fuel.  Mirrors the source: an inactive block
returns immediately; otherwise the re-entrancy flag is cleared, the current
action is polled, the frame counter incremented, and the flow result handled.
On `FlowNext` the block advances, `Init` runs on the new current action, and
`update` recurses while the block is still active.  On `FlowFinish` the block
resets and deactivates.  On `FlowIdle` a repositioned block re-runs `Init` on
the new current action. -/
def Block.update : Nat → Block → Option (Block × List Event)
  | 0, _ => none
  | fuel + 1, b =>
      if b.currentlyActive = false then some (b, [])
      else
        let b0 := { b with indexChanged := false }
        match getAt b0.actions b0.index with
        | none => none
        | some a =>
            match pollAct a b0 with
            | none => none
            | some (b1, ev1, p) =>
                let polled := Event.poll b0.index
                let b2 := { b1 with currentFrame := b1.currentFrame + 1 }
                match p with
                | Flow.next =>
                    let b3 := flowNextAdvance b2
                    match getAt b3.actions b3.index with
                    | none => none
                    | some _ =>
                        let b4 := { b3 with currentFrame := 0 }
                        let evs := polled :: ev1 ++ [Event.init b3.index]
                        if b4.active then
                          match Block.update fuel b4 with
                          | none => none
                          | some (b5, ev2) => some (b5, evs ++ ev2)
                        else some (b4, evs)
                | Flow.finish =>
                    let b3 := { b2 with index := 0, active := false, currentlyActive := false }
                    match getAt b3.actions 0 with
                    | none => none
                    | some _ =>
                        some ({ b3 with currentFrame := 0 }, polled :: ev1 ++ [Event.init 0])
                | Flow.idle =>
                    if b2.indexChanged then
                      match getAt b2.actions b2.index with
                      | none => none
                      | some _ =>
                          some ({ b2 with currentFrame := 0 },
                                polled :: ev1 ++ [Event.init b2.index])
                    else some (b2, [polled] ++ ev1)

/-- The per-tick index/activity effect of one `Advance`-returning poll with no
reposition: `update` clears the re-entrancy flag before polling, a
non-repositioning poll leaves it cleared, and the `FlowNext` branch then
advances. -/
def advanceTick (b : Block) : Block :=
  flowNextAdvance { b with indexChanged := false }

/-- `routine.Routine`: the registry of blocks.  The property store is not
represented (no claim concerns it). -/
structure Routine where
  blocks : List Block

/-- The second loop of `Routine.Update`: step every block in registration
order, collecting each block's event trace. -/
def updateBlocks : Nat → List Block → Option (List Block × List (List Event))
  | _, [] => some ([], [])
  | fuel, b :: rest =>
      match Block.update fuel b with
      | none => none
      | some (b', ev) =>
          match updateBlocks fuel rest with
          | none => none
          | some (rest', evs) => some (b' :: rest', ev :: evs)

/-- `Routine.Update`: first latch `currentlyActive := active` on every block,
then step every block once. -/
def Routine.update (fuel : Nat) (r : Routine) : Option (Routine × List (List Event)) :=
  let marked := r.blocks.map fun b => { b with currentlyActive := b.active }
  match updateBlocks fuel marked with
  | none => none
  | some (bs, evs) => some ({ blocks := bs }, evs)

/-- The per-element splice of the definition-time flattening loop: a
`Collection` contributes its contained actions (`ActionCollectionable`), any
other action contributes itself. -/
def spliceOf (c : ActKind) : List ActKind :=
  match c with
  | ActKind.collection l => l
  | _ => [c]

/-- The flattening loop shared by `Routine.Define`, `NewCollection` and
`NewGateOption`: splice every collection one level. -/
def defineFlatten : List ActKind → List ActKind
  | [] => []
  | c :: rest => spliceOf c ++ defineFlatten rest

/-- `Routine.Define`: flatten the supplied actions, remove any previous block
with the same id, append the new block, and also return it.  New blocks start
inactive at index 0 (Go zero values). -/
def Routine.define (r : Routine) (id : Int) (acts : List ActKind) : Routine × Block :=
  let newBlock : Block :=
    { currentlyActive := false, active := false, currentFrame := 0,
      id := id, actions := defineFlatten acts, index := 0, indexChanged := false }
  ({ blocks := (r.blocks.filter fun b => b.id != id) ++ [newBlock] }, newBlock)

/-- `actions.NewCollection`: flattens its arguments one level at
construction time. -/
def newCollection (acts : List ActKind) : ActKind :=
  ActKind.collection (defineFlatten acts)

/-- Whether an action is a `Collection` value. -/
def isColl : ActKind → Bool
  | ActKind.collection _ => true
  | _ => false

/-- A constructor-built action: its splice contains no `Collection`.
`newCollection` establishes this invariant, and every non-collection leaf has
it trivially. -/
def wfFlat (a : ActKind) : Prop :=
  ∀ y ∈ spliceOf a, isColl y = false

/-- `actions.Wait`: holds a duration and the deadline recorded by `Init`. -/
structure Wait where
  duration : Int
  targetTime : Int

/-- `Wait.Init`: record `time.Now().Add(w.Duration)` as the deadline. -/
def Wait.init (now : Int) (w : Wait) : Wait :=
  { w with targetTime := now + w.duration }

/-- `Wait.Poll`: `FlowNext` once `time.Now().After(w.targetTime)` (strictly
after the deadline), else `FlowIdle`. -/
def Wait.poll (now : Int) (w : Wait) : Flow :=
  if w.targetTime < now then Flow.next else Flow.idle

/-- `actions.TimingPair`: duration, and the lazily-set deadline.  The zero
`time.Time` (`IsZero`) is modelled as `none`. -/
structure TimingPair where
  duration : Int
  targetTime : Option Int

/-- `actions.Timing`: the pair list and the internal index.  (Note: in the
source `Timing.Init` takes no block argument.) -/
structure Timing where
  pairs : List TimingPair
  index : Int

/-- `Timing.Init`: resets the index only; deadlines are untouched. -/
def Timing.init (t : Timing) : Timing :=
  { t with index := 0 }

/-- `Timing.Poll`: read the current pair; if its deadline is zero, set it to
`now + duration` (written back through the slice pointer); once the deadline
has strictly passed, fire the pair's callback (recorded as the pair's index in
the returned list) and advance, wrapping to index 0 with `FlowNext` after the
last pair; otherwise `FlowIdle`. -/
def Timing.poll (now : Int) (t : Timing) : Option (Timing × List Int × Flow) :=
  match getAt t.pairs t.index with
  | none => none
  | some pair0 =>
      let target :=
        match pair0.targetTime with
        | none => now + pair0.duration
        | some tt => tt
      let pair := { pair0 with targetTime := some target }
      let pairs := setAt t.pairs t.index pair
      if target < now then
        let idx := t.index + 1
        if (t.pairs.length : Int) ≤ idx then
          some ({ pairs := pairs, index := 0 }, [t.index], Flow.next)
        else
          some ({ pairs := pairs, index := idx }, [t.index], Flow.idle)
      else
        some ({ pairs := pairs, index := t.index }, [], Flow.idle)

/-- `actions.GateOption`: guard predicate (`nil` = `none`; guards may read the
tick counter, so a guard is `Nat → Bool`), the flattened nested actions, and
the private sub-playhead. -/
structure GateOption where
  check : Option (Nat → Bool)
  actions : List ActKind
  index : Int

/-- `actions.NewGateOption`: flattens any `Collection` arguments one level,
exactly like `Routine.Define`; the new option starts at sub-index 0. -/
def newGateOption (check : Option (Nat → Bool)) (acts : List ActKind) : GateOption :=
  { check := check, actions := defineFlatten acts, index := 0 }

/-- `GateOption.Init`: `g.actions[0].Init(block)` (a fault on an empty list)
and reset the sub-index. -/
def GateOption.init (g : GateOption) : Option GateOption :=
  match getAt g.actions 0 with
  | none => none
  | some _ => some { g with index := 0 }

/-- `GateOption.Poll`: an empty option immediately returns `FlowNext`;
otherwise the nested current action is polled and the sub-playhead follows
the same Advance/Finish/Idle rules as a block, returning `FlowNext` exactly
when the nested sequence has just been exhausted (sub-index wrapped to 0). -/
def GateOption.poll (g : GateOption) (b : Block) : Option (GateOption × Block × Flow) :=
  if g.actions.length = 0 then some (g, b, Flow.next)
  else
    match getAt g.actions g.index with
    | none => none
    | some a =>
        match pollAct a b with
        | none => none
        | some (b', _ev, result) =>
            match result with
            | Flow.next =>
                let idx := g.index + 1
                if idx < (g.actions.length : Int) then
                  some ({ g with index := idx }, b', Flow.idle)
                else
                  some ({ g with index := 0 }, b', Flow.next)
            | Flow.finish => some (g, b', Flow.finish)
            | Flow.idle => some (g, b', Flow.idle)

/-- `actions.Gate`: the options and the committed choice (`ActiveEntry`,
modelled as an index into `options`; `none` = unresolved).  The optional
`onIdle`/`onChoose` callbacks are pure side effects and are not modelled. -/
structure Gate where
  options : List GateOption
  activeEntry : Option Nat

/-- The loop body of `Gate.Init`: for each option, when its action list is
non-empty, `entry.actions[0].Init(block)` is called (the length guard is what
keeps the access in range). -/
def gateInitEntries : List GateOption → Option Unit
  | [] => some ()
  | o :: rest =>
      if 0 < o.actions.length then
        match getAt o.actions 0 with
        | none => none
        | some _ => gateInitEntries rest
      else gateInitEntries rest

/-- `Gate.Init`: re-initialize every non-empty option's first nested action,
then clear the committed choice. -/
def Gate.init (g : Gate) : Option Gate :=
  match gateInitEntries g.options with
  | none => none
  | some _ => some { g with activeEntry := none }

/-- The guard evaluations the `Gate.Poll` selection loop performs at tick
`t`: positions of the options whose `CheckFunc` is actually called before the
loop breaks.  A `nil` guard short-circuits (`entry.CheckFunc == nil || ...`)
and is never called. -/
def guardsEvaluated (t : Nat) : List GateOption → List Nat
  | [] => []
  | o :: rest =>
      match o.check with
      | none => []
      | some f =>
          if f t then [0]
          else 0 :: (guardsEvaluated t rest).map (· + 1)

/-- The committed choice of the `Gate.Poll` selection loop at tick `t`: the
first option whose guard is `nil` or returns true. -/
def gateChoose (t : Nat) : List GateOption → Option Nat
  | [] => none
  | o :: rest =>
      match o.check with
      | none => some 0
      | some f =>
          if f t then some 0
          else (gateChoose t rest).map (· + 1)

/-- `Gate.Poll`: while committed, delegate entirely to the committed option's
poll (no guard is looked at); while unresolved, run the first-match selection
loop and return `FlowIdle`.  The returned `List Nat` records which guards
were evaluated during this poll. -/
def Gate.poll (t : Nat) (g : Gate) (b : Block) :
    Option (Gate × Block × List Nat × Flow) :=
  match g.activeEntry with
  | some i =>
      match g.options.get? i with
      | none => none
      | some opt =>
          match GateOption.poll opt b with
          | none => none
          | some (opt', b', f) =>
              some ({ g with options := g.options.set i opt' }, b', [], f)
  | none =>
      some ({ g with activeEntry := gateChoose t g.options }, b,
            guardsEvaluated t g.options, Flow.idle)

/-- Number of `Poll` calls recorded in an event trace. -/
def countPolls (l : List Event) : Nat :=
  l.countP fun e => match e with | Event.poll _ => true | _ => false

/-- Number of `Init` calls on the action in slot `j` recorded in a trace. -/
def countInits (j : Int) (l : List Event) : Nat :=
  l.countP fun e => match e with | Event.init i => i == j | _ => false

/-- A block whose first two actions complete instantly (`FlowNext`) and whose
third idles; used to exercise the engine on a single tick. -/
def cexFastForward : Block :=
  { currentlyActive := false, active := true, currentFrame := 0, id := 0,
    actions := [ActKind.flowConst Flow.next, ActKind.flowConst Flow.next,
                ActKind.flowConst Flow.idle],
    index := 0, indexChanged := false }

/-- A block whose current action repositions the playhead to slot 1 during
its own `Poll` and then returns `FlowIdle`. -/
def cexReposition : Block :=
  { currentlyActive := true, active := true, currentFrame := 0, id := 0,
    actions := [ActKind.setIdxThen 1 Flow.idle, ActKind.flowConst Flow.idle],
    index := 0, indexChanged := false }

/-- A block with a label in slot 1, for exercising `JumpTo`. -/
def cexLabelled : Block :=
  { currentlyActive := true, active := true, currentFrame := 3, id := 0,
    actions := [ActKind.flowConst Flow.idle, ActKind.label 7,
                ActKind.flowConst Flow.idle],
    index := 0, indexChanged := false }

/-- `cexFastForward` as `Routine.Update` marks it at the start of a tick. -/
def cexFFActive : Block :=
  { cexFastForward with currentlyActive := true }

/-- The outcome of one tick on `cexFFActive`: three actions polled. -/
def cexFFResult : Block × List Event :=
  ({ cexFFActive with currentFrame := 1, index := 2 },
   [Event.poll 0, Event.init 1, Event.poll 1, Event.init 2, Event.poll 2])

/-- A one-action block whose action idles forever. -/
def cexIdleBlock : Block :=
  { currentlyActive := true, active := true, currentFrame := 0, id := 0,
    actions := [ActKind.flowConst Flow.idle], index := 0, indexChanged := false }

/-- The outcome of one tick on `cexIdleBlock`: a single poll, no `Init`. -/
def cexIdleResult : Block × List Event :=
  ({ cexIdleBlock with currentFrame := 1 }, [Event.poll 0])

/-- A block whose first action advances and whose second idles. -/
def cexAdvance : Block :=
  { currentlyActive := true, active := true, currentFrame := 0, id := 0,
    actions := [ActKind.flowConst Flow.next, ActKind.flowConst Flow.idle],
    index := 0, indexChanged := false }

/-- The outcome of one tick on `cexAdvance`: advance, `Init` slot 1 once,
poll slot 1. -/
def cexAdvanceResult : Block × List Event :=
  ({ cexAdvance with currentFrame := 1, index := 1 },
   [Event.poll 0, Event.init 1, Event.poll 1])

/-- The outcome of one tick on `cexReposition`: the reposition target is
initialized twice. -/
def cexRepositionResult : Block × List Event :=
  ({ cexReposition with index := 1, indexChanged := true },
   [Event.poll 0, Event.init 1, Event.init 1])

/-- A gate with a false-guard option, a true-guard option and a nil-guard
else option, each holding one idling nested action. -/
def cexGate : Gate :=
  { options :=
      [{ check := some (fun _ => false), actions := [ActKind.flowConst Flow.idle], index := 0 },
       { check := some (fun _ => true), actions := [ActKind.flowConst Flow.next], index := 0 },
       { check := none, actions := [ActKind.flowConst Flow.idle], index := 0 }],
    activeEntry := none }

/-- `cexGate` committed to its first (false-guard) option. -/
def cexGateCommitted : Gate :=
  { cexGate with activeEntry := some 0 }

/-- The result of polling `cexGateCommitted`: the committed option idles, no
guard is evaluated, the commitment stands. -/
def cexGatePollResult : Gate × Block × List Nat × Flow :=
  (cexGateCommitted, cexLabelled, [], Flow.idle)

/-- A gate committed to an option with an empty action list. -/
def cexGateEmptyOpt : Gate :=
  { options := [{ check := none, actions := [], index := 0 }], activeEntry := some 0 }

/-! ## Helper lemmas -/

theorem getAt_isSome {α : Type} (l : List α) (i : Int) (h0 : 0 ≤ i)
    (h1 : i < (l.length : Int)) : ∃ a, getAt l i = some a := by
  unfold getAt
  rw [if_neg (by omega)]
  cases h : l.get? i.toNat with
  | none =>
      rw [List.get?_eq_none] at h
      omega
  | some a => exact ⟨a, rfl⟩

/-! ## C6: Wait deadline semantics -/

/-- C6 counterexample: with `Init` at `T0 = 0` and `D = 5`, the poll exactly
at `T0 + D = 5` (so at-or-after the deadline, as the claim puts it) returns
`FlowIdle`, not `FlowNext`: `time.Now().After` is a strict comparison. -/
theorem wait_deadline_boundary_cex :
    (0 : Int) + 5 ≤ 5 ∧
    Wait.poll 5 (Wait.init 0 { duration := 5, targetTime := 0 }) = Flow.idle := by
  exact ⟨by decide, by decide⟩

/-- C6 (amended): `Init` at `T0` records `T0 + D` as the deadline; every poll
at or before `T0 + D` returns `FlowIdle`; every poll strictly after `T0 + D`
returns `FlowNext`; re-running `Init` later resets the deadline relative to
the new `Init` time, not the original one. -/
theorem wait_deadline_spec :
    (∀ (T0 : Int) (w : Wait), (Wait.init T0 w).targetTime = T0 + w.duration) ∧
    (∀ (T0 t : Int) (w : Wait), t ≤ T0 + w.duration →
        Wait.poll t (Wait.init T0 w) = Flow.idle) ∧
    (∀ (T0 t : Int) (w : Wait), T0 + w.duration < t →
        Wait.poll t (Wait.init T0 w) = Flow.next) ∧
    (∀ (T0 T1 : Int) (w : Wait), Wait.init T1 (Wait.init T0 w) = Wait.init T1 w) := by
  refine ⟨fun T0 w => rfl, fun T0 t w h => ?_, fun T0 t w h => ?_, fun T0 T1 w => rfl⟩
  · show (if T0 + w.duration < t then Flow.next else Flow.idle) = Flow.idle
    rw [if_neg (by omega)]
  · show (if T0 + w.duration < t then Flow.next else Flow.idle) = Flow.next
    rw [if_pos (by omega)]

/-- Witness for `wait_deadline_spec` at `T0 = 0`, `D = 5`, polls at 3 and 6. -/
theorem wait_deadline_spec_witness :
    Wait.poll 3 (Wait.init 0 { duration := 5, targetTime := 0 }) = Flow.idle ∧
    Wait.poll 6 (Wait.init 0 { duration := 5, targetTime := 0 }) = Flow.next :=
  ⟨wait_deadline_spec.2.1 0 3 _ (by decide), wait_deadline_spec.2.2.1 0 6 _ (by decide)⟩

/-! ## C9: Timing chain semantics -/

/-- C9 counterexample: a one-pair chain (`D = 5`) runs to completion (the
deadline 5 is set lazily on the first poll at time 0; the pair fires at time
6 with `FlowNext` and the index resets to 0).  On a later visit — `Init`,
then a poll at time 100 — the stale deadline is not recomputed, so the pair
fires immediately instead of waiting its full duration again; by contrast a
fresh pair polled at time 100 idles until 105. -/
theorem timing_stale_deadline_cex :
    Timing.poll 0 { pairs := [{ duration := 5, targetTime := none }], index := 0 } =
      some ({ pairs := [{ duration := 5, targetTime := some 5 }], index := 0 },
            [], Flow.idle) ∧
    Timing.poll 6 { pairs := [{ duration := 5, targetTime := some 5 }], index := 0 } =
      some ({ pairs := [{ duration := 5, targetTime := some 5 }], index := 0 },
            [0], Flow.next) ∧
    Timing.poll 100
        (Timing.init { pairs := [{ duration := 5, targetTime := some 5 }], index := 0 }) =
      some ({ pairs := [{ duration := 5, targetTime := some 5 }], index := 0 },
            [0], Flow.next) ∧
    Timing.poll 100 { pairs := [{ duration := 5, targetTime := none }], index := 0 } =
      some ({ pairs := [{ duration := 5, targetTime := some 105 }], index := 0 },
            [], Flow.idle) := by
  refine ⟨?_, ?_, ?_, ?_⟩ <;> rfl

/-- C9 (amended): a pair's deadline is computed lazily as `now + duration` on
its first poll (`Init` only resets the index); once the deadline strictly
passes, the pair fires exactly once and the index advances, wrapping to 0
with `FlowNext` after the last pair so the chain is structurally reusable —
but the deadline is set only when it was never set before, so on a later
visit an already-fired pair fires again immediately rather than waiting its
full duration. -/
theorem timing_chain_spec :
    (∀ t : Timing, Timing.init t = { t with index := 0 }) ∧
    (∀ (now : Int) (t : Timing) (p : TimingPair),
        getAt t.pairs t.index = some p → p.targetTime = none → 0 ≤ p.duration →
        Timing.poll now t =
          some ({ pairs := setAt t.pairs t.index
                             { p with targetTime := some (now + p.duration) },
                  index := t.index }, [], Flow.idle)) ∧
    (∀ (now : Int) (t : Timing) (p : TimingPair) (T : Int),
        getAt t.pairs t.index = some p → p.targetTime = some T → T < now →
        t.index + 1 < (t.pairs.length : Int) →
        Timing.poll now t =
          some ({ pairs := setAt t.pairs t.index p, index := t.index + 1 },
                [t.index], Flow.idle)) ∧
    (∀ (now : Int) (t : Timing) (p : TimingPair) (T : Int),
        getAt t.pairs t.index = some p → p.targetTime = some T → T < now →
        (t.pairs.length : Int) ≤ t.index + 1 →
        Timing.poll now t =
          some ({ pairs := setAt t.pairs t.index p, index := 0 },
                [t.index], Flow.next)) := by
  refine ⟨fun t => rfl, fun now t p hget hp hd => ?_, fun now t p T hget hp hT hlen => ?_,
         fun now t p T hget hp hT hlen => ?_⟩
  · unfold Timing.poll
    rw [hget]
    simp only [hp]
    rw [if_neg (by omega)]
  · have hpe : { p with targetTime := some T } = p := by rw [← hp]
    unfold Timing.poll
    rw [hget]
    simp only [hp, hpe]
    rw [if_pos hT, if_neg (by omega)]
  · have hpe : { p with targetTime := some T } = p := by rw [← hp]
    unfold Timing.poll
    rw [hget]
    simp only [hp, hpe]
    rw [if_pos hT, if_pos (by omega)]

/-- Witness for `timing_chain_spec`: a fresh pair sets its deadline at first
poll; a passed non-final pair fires and advances; a passed final pair fires,
wraps and returns `FlowNext`. -/
theorem timing_chain_spec_witness :
    Timing.poll 3 { pairs := [{ duration := 5, targetTime := none }], index := 0 } =
      some ({ pairs := [{ duration := 5, targetTime := some 8 }], index := 0 },
            [], Flow.idle) ∧
    Timing.poll 3 { pairs := [{ duration := 5, targetTime := some 2 },
                              { duration := 7, targetTime := none }], index := 0 } =
      some ({ pairs := [{ duration := 5, targetTime := some 2 },
                        { duration := 7, targetTime := none }], index := 1 },
            [0], Flow.idle) ∧
    Timing.poll 3 { pairs := [{ duration := 5, targetTime := some 2 }], index := 0 } =
      some ({ pairs := [{ duration := 5, targetTime := some 2 }], index := 0 },
            [0], Flow.next) :=
  ⟨timing_chain_spec.2.1 3 { pairs := [{ duration := 5, targetTime := none }], index := 0 }
      { duration := 5, targetTime := none } rfl rfl (by decide),
   timing_chain_spec.2.2.1 3
      { pairs := [{ duration := 5, targetTime := some 2 },
                  { duration := 7, targetTime := none }], index := 0 }
      { duration := 5, targetTime := some 2 } 2 rfl rfl (by decide) (by decide),
   timing_chain_spec.2.2.2 3
      { pairs := [{ duration := 5, targetTime := some 2 }], index := 0 }
      { duration := 5, targetTime := some 2 } 2 rfl rfl (by decide) (by decide)⟩

/-! ## C3: empty action lists at definition time -/

/-- C3 counterexample: `Routine.Define` with an empty action list succeeds
and returns a `Block` with zero actions — there is no "InvalidDefinition"
failure anywhere in the API — and stepping that block once active faults
(index out of range, modelled as `none`).  Likewise `NewGateOption` with no
actions returns an option with an empty nested list. -/
theorem empty_definition_accepted_cex :
    (Routine.define { blocks := [] } 0 []).2.actions = [] ∧
    Block.update 5 { currentlyActive := true, active := true, currentFrame := 0,
                     id := 0, actions := [], index := 0, indexChanged := false } = none ∧
    (newGateOption none []).actions = [] :=
  ⟨rfl, rfl, rfl⟩

/-- C3 (amended): an empty action list is not rejected at definition time.
`Routine.Define` returns a block whose action list is empty and whose
stepping, once active, faults; `NewGateOption` returns an option with an
empty action list, which `GateOption.Poll` treats as immediately complete
(`FlowNext`), so only the Gate machinery tolerates the empty case. -/
theorem empty_definition_behavior :
    (∀ (r : Routine) (i : Int), (Routine.define r i []).2.actions = []) ∧
    (∀ (fuel : Nat) (b : Block), b.actions = [] → b.currentlyActive = true →
        Block.update (fuel + 1) b = none) ∧
    (∀ (chk : Option (Nat → Bool)), (newGateOption chk []).actions = []) ∧
    (∀ (chk : Option (Nat → Bool)) (b : Block),
        GateOption.poll (newGateOption chk []) b =
          some (newGateOption chk [], b, Flow.next)) := by
  refine ⟨fun r i => rfl, fun fuel b h1 h2 => ?_, fun chk => rfl, fun chk b => rfl⟩
  simp only [Block.update, h2]
  simp [getAt, h1]

/-- Witness for `empty_definition_behavior`: the empty block produced by an
empty definition faults on its first active step. -/
theorem empty_definition_behavior_witness :
    Block.update 3 { currentlyActive := true, active := true, currentFrame := 0,
                     id := 1, actions := [], index := 0, indexChanged := false } = none :=
  empty_definition_behavior.2.1 2 _ rfl rfl

/-! ## C7: jump-to-label resolution -/

theorem findLabelIdx_lt (lbl : Int) :
    ∀ (l : List ActKind) (j : Nat), findLabelIdx lbl l = some j → j < l.length := by
  intro l
  induction l with
  | nil => intro j h; exact absurd h (by simp [findLabelIdx])
  | cons x rest ih =>
      intro j h
      unfold findLabelIdx at h
      cases hid : actID x with
      | some i =>
          rw [hid] at h
          dsimp only at h
          by_cases hi : i = lbl
          · rw [if_pos hi] at h
            injection h with h
            subst h
            simp
          · rw [if_neg hi] at h
            obtain ⟨j', hj', rfl⟩ := Option.map_eq_some'.1 h
            have := ih j' hj'
            simp only [List.length_cons]
            omega
      | none =>
          rw [hid] at h
          dsimp only at h
          obtain ⟨j', hj', rfl⟩ := Option.map_eq_some'.1 h
          have := ih j' hj'
          simp only [List.length_cons]
          omega

theorem findLabelIdx_first (lbl : Int) :
    ∀ (l : List ActKind) (j : Nat), findLabelIdx lbl l = some j →
      (∃ a, l.get? j = some a ∧ actID a = some lbl) ∧
      (∀ k, k < j → ∀ a, l.get? k = some a → actID a ≠ some lbl) := by
  intro l
  induction l with
  | nil => intro j h; exact absurd h (by simp [findLabelIdx])
  | cons x rest ih =>
      intro j h
      unfold findLabelIdx at h
      cases hid : actID x with
      | some i =>
          rw [hid] at h
          dsimp only at h
          by_cases hi : i = lbl
          · rw [if_pos hi] at h
            injection h with h
            subst h
            refine ⟨⟨x, rfl, by rw [hid, hi]⟩, ?_⟩
            intro k hk a ha
            exact absurd hk (Nat.not_lt_zero k)
          · rw [if_neg hi] at h
            obtain ⟨j', hj', rfl⟩ := Option.map_eq_some'.1 h
            obtain ⟨⟨a, ha, haid⟩, hearlier⟩ := ih j' hj'
            refine ⟨⟨a, by simpa using ha, haid⟩, ?_⟩
            intro k hk a' ha'
            cases k with
            | zero =>
                simp only [List.get?_cons_zero, Option.some.injEq] at ha'
                subst ha'
                rw [hid]
                intro hc
                injection hc with hc
                exact hi hc
            | succ k' =>
                simp only [List.get?_cons_succ] at ha'
                exact hearlier k' (by omega) a' ha'
      | none =>
          rw [hid] at h
          dsimp only at h
          obtain ⟨j', hj', rfl⟩ := Option.map_eq_some'.1 h
          obtain ⟨⟨a, ha, haid⟩, hearlier⟩ := ih j' hj'
          refine ⟨⟨a, by simpa using ha, haid⟩, ?_⟩
          intro k hk a' ha'
          cases k with
          | zero =>
              simp only [List.get?_cons_zero, Option.some.injEq] at ha'
              subst ha'
              rw [hid]
              exact fun hc => Option.noConfusion hc
          | succ k' =>
              simp only [List.get?_cons_succ] at ha'
              exact hearlier k' (by omega) a' ha'

theorem clampIdx_eq (b : Block) (i : Int) (h0 : 0 ≤ i)
    (h1 : i < (b.actions.length : Int)) : clampIdx b i = i := by
  unfold clampIdx
  rw [if_neg (by omega)]
  rw [if_neg (by omega)]

theorem setIndex_spec (b : Block) (i : Int) (h0 : 0 ≤ i)
    (h1 : i < (b.actions.length : Int)) :
    (b.index = i → Block.setIndex b i = some (b, [])) ∧
    (b.index ≠ i → Block.setIndex b i =
        some ({ b with
                index := i,
                currentFrame := 0,
                indexChanged := if b.currentlyActive then true else b.indexChanged },
              [Event.init i])) := by
  have hc : clampIdx b i = i := clampIdx_eq b i h0 h1
  constructor
  · intro he
    unfold Block.setIndex
    simp only [hc]
    rw [if_pos he]
  · intro hne
    unfold Block.setIndex
    simp only [hc]
    rw [if_neg hne]
    obtain ⟨a, ha⟩ := getAt_isSome b.actions i h0 h1
    rw [ha]

/-- C7: `JumpTo` scans linearly for the first action whose identity equals
the requested label; on a hit the playhead is relocated to that slot and its
index returned; if no action matches, the block is returned untouched (index
unchanged, no events) with `-1` — a silent no-op, not an error. -/
theorem jumpTo_label_spec :
    (∀ (b : Block) (lbl : Int), findLabelIdx lbl b.actions = none →
        Block.jumpTo b lbl = some (b, [], -1)) ∧
    (∀ (b : Block) (lbl : Int) (j : Nat), findLabelIdx lbl b.actions = some j →
        (∃ a, b.actions.get? j = some a ∧ actID a = some lbl) ∧
        (∀ k, k < j → ∀ a, b.actions.get? k = some a → actID a ≠ some lbl) ∧
        (∃ b' ev, Block.jumpTo b lbl = some (b', ev, (j : Int)) ∧
            b'.index = (j : Int) ∧ b'.actions = b.actions)) := by
  constructor
  · intro b lbl h
    unfold Block.jumpTo
    rw [h]
  · intro b lbl j h
    obtain ⟨hfound, hearlier⟩ := findLabelIdx_first lbl b.actions j h
    have hlt : j < b.actions.length := findLabelIdx_lt lbl b.actions j h
    refine ⟨hfound, hearlier, ?_⟩
    have h0 : (0 : Int) ≤ (j : Int) := by omega
    have h1 : (j : Int) < (b.actions.length : Int) := by exact_mod_cast hlt
    by_cases he : b.index = (j : Int)
    · refine ⟨b, [], ?_, he, rfl⟩
      unfold Block.jumpTo
      rw [h]
      dsimp only
      rw [(setIndex_spec b j h0 h1).1 he]
    · refine ⟨{ b with
                index := (j : Int),
                currentFrame := 0,
                indexChanged := if b.currentlyActive then true else b.indexChanged },
              [Event.init (j : Int)], ?_, rfl, rfl⟩
      unfold Block.jumpTo
      rw [h]
      dsimp only
      rw [(setIndex_spec b j h0 h1).2 he]

/-- Witness for `jumpTo_label_spec`: on `cexLabelled` an unresolved label is
a no-op returning `-1`, and label `7` relocates the playhead to slot 1. -/
theorem jumpTo_label_spec_witness :
    Block.jumpTo cexLabelled 99 = some (cexLabelled, [], -1) ∧
    (∃ a, cexLabelled.actions.get? 1 = some a ∧ actID a = some 7) :=
  ⟨jumpTo_label_spec.1 cexLabelled 99 rfl,
   (jumpTo_label_spec.2 cexLabelled 7 1 rfl).1⟩

/-! ## C4: advance, wrap and the N-step loop invariant -/

theorem advanceTick_eq (b : Block) :
    advanceTick b =
      if b.index + 1 > (b.actions.length : Int) - 1 then
        { b with indexChanged := false, index := 0, active := false,
                 currentlyActive := false }
      else { b with indexChanged := false, index := b.index + 1 } := rfl

theorem advanceTick_actions (b : Block) : (advanceTick b).actions = b.actions := by
  rw [advanceTick_eq]
  split <;> rfl

theorem advanceTick_index (b : Block) (h0 : 0 ≤ b.index)
    (h1 : b.index < (b.actions.length : Int)) :
    (advanceTick b).index = (b.index + 1) % (b.actions.length : Int) := by
  rw [advanceTick_eq]
  split
  · next hgt =>
      show (0 : Int) = _
      have he : b.index + 1 = (b.actions.length : Int) := by omega
      rw [he, Int.emod_self]
  · next hle =>
      show b.index + 1 = _
      rw [Int.emod_eq_of_lt (by omega) (by omega)]

theorem advanceTick_iterate (b : Block) (k : Nat) (h0 : 0 ≤ b.index)
    (h1 : b.index < (b.actions.length : Int)) :
    (advanceTick^[k] b).actions = b.actions ∧
    (advanceTick^[k] b).index = (b.index + k) % (b.actions.length : Int) := by
  induction k with
  | zero =>
      refine ⟨rfl, ?_⟩
      simp only [Function.iterate_zero, id_eq, Nat.cast_zero, add_zero]
      exact (Int.emod_eq_of_lt h0 h1).symm
  | succ k ih =>
      obtain ⟨hact, hidx⟩ := ih
      have hN : (0 : Int) < (b.actions.length : Int) := by omega
      have hb0 : 0 ≤ (advanceTick^[k] b).index := by
        rw [hidx]; exact Int.emod_nonneg _ (by omega)
      have hb1 : (advanceTick^[k] b).index < (((advanceTick^[k] b).actions.length : Int)) := by
        rw [hact, hidx]; exact Int.emod_lt_of_pos _ hN
      rw [Function.iterate_succ_apply']
      refine ⟨by rw [advanceTick_actions, hact], ?_⟩
      rw [advanceTick_index _ hb0 hb1, hact, hidx]
      push_cast
      rw [← add_assoc]
      conv_rhs => rw [Int.add_emod (b.index + (k : Int)) 1]
      rw [Int.add_emod ((b.index + (k : Int)) % (b.actions.length : Int)) 1,
          Int.emod_emod_of_dvd _ dvd_rfl]

/-- C4: in the `FlowNext` branch, when the poll did not reposition the
playhead the index increments by one; when the incremented index passes the
last slot it wraps to 0 and the block deactivates; consequently N consecutive
advance steps (each one the index/activity effect of an `Advance`-returning
poll with no jump) return the playhead to its starting index. -/
theorem advance_wrap_loop_spec :
    (∀ b : Block, b.indexChanged = false →
        b.index + 1 ≤ (b.actions.length : Int) - 1 →
        (flowNextAdvance b).index = b.index + 1 ∧
        (flowNextAdvance b).active = b.active ∧
        (flowNextAdvance b).currentlyActive = b.currentlyActive) ∧
    (∀ b : Block, b.indexChanged = false →
        (b.actions.length : Int) - 1 < b.index + 1 →
        (flowNextAdvance b).index = 0 ∧ (flowNextAdvance b).active = false ∧
        (flowNextAdvance b).currentlyActive = false) ∧
    (∀ (b : Block) (N : Nat), b.actions.length = N → 0 ≤ b.index →
        b.index < (N : Int) → (advanceTick^[N] b).index = b.index) := by
  refine ⟨fun b h h2 => ?_, fun b h h2 => ?_, fun b N hlen h0 h1 => ?_⟩
  · unfold flowNextAdvance
    simp only [h, if_true]
    rw [if_neg (by simpa using by omega)]
    exact ⟨rfl, rfl, rfl⟩
  · unfold flowNextAdvance
    simp only [h, if_true]
    rw [if_pos (by simpa using by omega)]
    exact ⟨rfl, rfl, rfl⟩
  · have h1' : b.index < (b.actions.length : Int) := by rw [hlen]; exact h1
    have := (advanceTick_iterate b N h0 h1').2
    rw [this, hlen, Int.add_emod_self, Int.emod_eq_of_lt h0 h1]

/-- Witness for `advance_wrap_loop_spec` on `cexFastForward` (3 actions):
a mid-list advance increments, the advance at the last slot wraps and
deactivates, and 3 advance steps return the playhead to slot 0. -/
theorem advance_wrap_loop_spec_witness :
    (flowNextAdvance { cexFastForward with
                       currentlyActive := true,
                       indexChanged := false }).index = 1 ∧
    (flowNextAdvance { cexFastForward with
                       index := 2,
                       currentlyActive := true,
                       indexChanged := false }).active = false ∧
    (advanceTick^[3] cexFastForward).index = cexFastForward.index :=
  ⟨(advance_wrap_loop_spec.1 _ rfl (by decide)).1,
   (advance_wrap_loop_spec.2.1 _ rfl (by decide)).2.1,
   advance_wrap_loop_spec.2.2 cexFastForward 3 rfl (by decide) (by decide)⟩

/-! ## C5: gate commit-once and first-match guard selection -/

theorem gateChoose_first (t : Nat) :
    ∀ (l : List GateOption) (j : Nat), gateChoose t l = some j →
      (∃ o, l.get? j = some o ∧ (o.check = none ∨ ∃ f, o.check = some f ∧ f t = true)) ∧
      (∀ k, k < j → ∀ o, l.get? k = some o → ∃ f, o.check = some f ∧ f t = false) := by
  intro l
  induction l with
  | nil => intro j h; exact absurd h (by simp [gateChoose])
  | cons o rest ih =>
      intro j h
      unfold gateChoose at h
      cases hc : o.check with
      | none =>
          rw [hc] at h
          dsimp only at h
          injection h with h
          subst h
          exact ⟨⟨o, rfl, Or.inl hc⟩, fun k hk o' ho' => absurd hk (Nat.not_lt_zero k)⟩
      | some f =>
          rw [hc] at h
          dsimp only at h
          by_cases hf : f t
          · rw [if_pos hf] at h
            injection h with h
            subst h
            exact ⟨⟨o, rfl, Or.inr ⟨f, hc, hf⟩⟩,
                   fun k hk o' ho' => absurd hk (Nat.not_lt_zero k)⟩
          · rw [if_neg hf] at h
            obtain ⟨j', hj', rfl⟩ := Option.map_eq_some'.1 h
            obtain ⟨⟨o', ho', hcheck⟩, hearlier⟩ := ih j' hj'
            refine ⟨⟨o', by simpa using ho', hcheck⟩, ?_⟩
            intro k hk o2 ho2
            cases k with
            | zero =>
                simp only [List.get?_cons_zero, Option.some.injEq] at ho2
                subst ho2
                exact ⟨f, hc, by simpa using hf⟩
            | succ k' =>
                simp only [List.get?_cons_succ] at ho2
                exact hearlier k' (by omega) o2 ho2

/-- C5: once a gate has committed (`ActiveEntry` set), polling delegates to
the committed option and evaluates no guard at all — the evaluated-guard list
is empty and the commitment is unchanged — until the gate is reset by `Init`;
before commitment, the poll performs the first-match scan in definition order
and returns `FlowIdle`, where the committed option is the first one whose
guard is absent (`nil`, treated as always-true and never called) or returns
true, every earlier option's guard having been evaluated to false. -/
theorem gate_commit_once_spec :
    (∀ (t : Nat) (g : Gate) (b : Block) (i : Nat) (r : Gate × Block × List Nat × Flow),
        g.activeEntry = some i → Gate.poll t g b = some r →
        r.2.2.1 = [] ∧ r.1.activeEntry = some i) ∧
    (∀ (t : Nat) (g : Gate) (b : Block), g.activeEntry = none →
        Gate.poll t g b =
          some ({ g with activeEntry := gateChoose t g.options }, b,
                guardsEvaluated t g.options, Flow.idle)) ∧
    (∀ (t : Nat) (l : List GateOption) (j : Nat), gateChoose t l = some j →
        (∃ o, l.get? j = some o ∧ (o.check = none ∨ ∃ f, o.check = some f ∧ f t = true)) ∧
        (∀ k, k < j → ∀ o, l.get? k = some o → ∃ f, o.check = some f ∧ f t = false)) := by
  refine ⟨fun t g b i r hact hpoll => ?_, fun t g b hact => ?_, gateChoose_first⟩
  · unfold Gate.poll at hpoll
    rw [hact] at hpoll
    dsimp only at hpoll
    cases hopt : g.options.get? i with
    | none => rw [hopt] at hpoll; exact absurd hpoll (by simp)
    | some opt =>
        rw [hopt] at hpoll
        dsimp only at hpoll
        cases hop : GateOption.poll opt b with
        | none => rw [hop] at hpoll; exact absurd hpoll (by simp)
        | some res =>
            obtain ⟨opt', b', f⟩ := res
            rw [hop] at hpoll
            dsimp only at hpoll
            injection hpoll with hpoll
            subst hpoll
            exact ⟨rfl, rfl⟩
  · unfold Gate.poll
    rw [hact]

/-- Witness for `gate_commit_once_spec`: polling the committed `cexGate`
evaluates no guard and keeps the commitment, and on the uncommitted
`cexGate` the selection commits to option 1, the first whose guard holds. -/
theorem gate_commit_once_spec_witness :
    (cexGatePollResult.2.2.1 = [] ∧ cexGatePollResult.1.activeEntry = some 0) ∧
    (∃ o, cexGate.options.get? 1 = some o ∧
        (o.check = none ∨ ∃ f, o.check = some f ∧ f 0 = true)) :=
  ⟨gate_commit_once_spec.1 0 cexGateCommitted cexLabelled 0 cexGatePollResult rfl rfl,
   (gate_commit_once_spec.2.2 0 cexGate.options 1 rfl).1⟩

/-! ## C10: empty gate options are tolerated -/

theorem gateInitEntries_total : ∀ l : List GateOption, gateInitEntries l = some () := by
  intro l
  induction l with
  | nil => rfl
  | cons o rest ih =>
      unfold gateInitEntries
      by_cases h : 0 < o.actions.length
      · rw [if_pos h]
        obtain ⟨a, ha⟩ := getAt_isSome o.actions 0 (by omega) (by exact_mod_cast h)
        rw [ha]
        exact ih
      · rw [if_neg h]
        exact ih

/-- C10: a `GateOption` with zero nested actions is tolerated: `Gate.Init`
guards each option's first-action initialization by a length check, so it
succeeds on every gate (while the raw `GateOption.Init` of an empty option
would fault); and polling a gate committed to an empty option returns
`FlowNext` immediately, so the owning block moves past the gate. -/
theorem gate_empty_option_spec :
    (∀ g : Gate, Gate.init g = some { g with activeEntry := none }) ∧
    (∀ chk : Option (Nat → Bool), GateOption.init (newGateOption chk []) = none) ∧
    (∀ (t : Nat) (g : Gate) (b : Block) (i : Nat) (opt : GateOption),
        g.activeEntry = some i → g.options.get? i = some opt → opt.actions = [] →
        Gate.poll t g b =
          some ({ g with options := g.options.set i opt }, b, [], Flow.next)) := by
  refine ⟨fun g => ?_, fun chk => rfl, fun t g b i opt hact hget hopt => ?_⟩
  · unfold Gate.init
    rw [gateInitEntries_total g.options]
  · have hpoll : GateOption.poll opt b = some (opt, b, Flow.next) := by
      unfold GateOption.poll
      rw [hopt]
      rfl
    unfold Gate.poll
    rw [hact]
    dsimp only
    rw [hget]
    dsimp only
    rw [hpoll]

/-- Witness for `gate_empty_option_spec`: `Gate.Init` succeeds on the gate
holding only an empty option, and polling it committed yields `FlowNext`. -/
theorem gate_empty_option_spec_witness :
    Gate.init cexGateEmptyOpt = some { cexGateEmptyOpt with activeEntry := none } ∧
    Gate.poll 0 cexGateEmptyOpt cexLabelled =
      some ({ cexGateEmptyOpt with
              options := cexGateEmptyOpt.options.set 0
                           { check := none, actions := [], index := 0 } },
            cexLabelled, [], Flow.next) :=
  ⟨gate_empty_option_spec.1 cexGateEmptyOpt,
   gate_empty_option_spec.2.2 0 cexGateEmptyOpt cexLabelled 0
     { check := none, actions := [], index := 0 } rfl rfl rfl⟩

/-! ## C8: collection flattening -/

theorem spliceOf_nonColl (a : ActKind) (h : isColl a = false) : spliceOf a = [a] := by
  cases a <;> first | rfl | simp [isColl] at h

theorem defineFlatten_noColl :
    ∀ l : List ActKind, (∀ x ∈ l, wfFlat x) → ∀ y ∈ defineFlatten l, isColl y = false := by
  intro l
  induction l with
  | nil => intro _ y hy; exact absurd hy (by simp [defineFlatten])
  | cons x rest ih =>
      intro hwf y hy
      unfold defineFlatten at hy
      rw [List.mem_append] at hy
      cases hy with
      | inl h => exact hwf x (by simp) y h
      | inr h => exact ih (fun z hz => hwf z (by simp [hz])) y h

/-- C8: a `Collection` supplied where a list of actions is accepted is
spliced in place: `[A, Collection(B, C), D]` defines exactly `[A, B, C, D]`;
`Routine.Define` and `NewGateOption` store exactly the flattened list; and
since `NewCollection` itself flattens its arguments at construction time,
constructor-built collections carry no nested collection, so no `Collection`
value appears in a defined block's or gate option's action list. -/
theorem collection_flattening_spec :
    (∀ a b c d : ActKind, isColl a = false → isColl b = false → isColl c = false →
        isColl d = false →
        defineFlatten [a, newCollection [b, c], d] = [a, b, c, d]) ∧
    (∀ (r : Routine) (i : Int) (l : List ActKind),
        (Routine.define r i l).2.actions = defineFlatten l) ∧
    (∀ (chk : Option (Nat → Bool)) (l : List ActKind),
        (newGateOption chk l).actions = defineFlatten l) ∧
    (∀ l : List ActKind, (∀ x ∈ l, wfFlat x) → ∀ y ∈ defineFlatten l, isColl y = false) ∧
    (∀ l : List ActKind, (∀ x ∈ l, wfFlat x) → wfFlat (newCollection l)) := by
  refine ⟨fun a b c d ha hb hc hd => ?_, fun r i l => rfl, fun chk l => rfl,
         defineFlatten_noColl, fun l hwf y hy => defineFlatten_noColl l hwf y hy⟩
  show spliceOf a ++ (spliceOf (newCollection [b, c]) ++ (spliceOf d ++ [])) = _
  rw [spliceOf_nonColl a ha, spliceOf_nonColl d hd]
  show [a] ++ ((spliceOf b ++ (spliceOf c ++ [])) ++ ([d] ++ [])) = _
  rw [spliceOf_nonColl b hb, spliceOf_nonColl c hc]
  rfl

/-- Witness for `collection_flattening_spec`: a concrete 3-element definition
with an inner 2-element collection yields exactly 4 actions, and a
collection-of-collections definition yields a collection-free list. -/
theorem collection_flattening_spec_witness :
    defineFlatten [ActKind.flowConst Flow.idle,
                   newCollection [ActKind.label 1, ActKind.flowConst Flow.next],
                   ActKind.label 2] =
      [ActKind.flowConst Flow.idle, ActKind.label 1, ActKind.flowConst Flow.next,
       ActKind.label 2] ∧
    (∀ y ∈ defineFlatten [newCollection [newCollection [ActKind.label 3], ActKind.label 4]],
        isColl y = false) :=
  ⟨collection_flattening_spec.1 _ _ _ _ rfl rfl rfl rfl,
   collection_flattening_spec.2.2.2.1 _ (by
      intro x hx
      rw [List.mem_singleton] at hx
      subst hx
      show ∀ y ∈ [ActKind.label 3, ActKind.label 4], isColl y = false
      intro y hy
      rcases List.mem_cons.1 hy with h | h
      · subst h; rfl
      · rw [List.mem_singleton] at h; subst h; rfl)⟩

/-! ## Helper lemmas about event traces and the step function -/

theorem countPolls_cons_poll (i : Int) (l : List Event) :
    countPolls (Event.poll i :: l) = countPolls l + 1 := by
  simp [countPolls, List.countP_cons]

theorem countPolls_cons_init (i : Int) (l : List Event) :
    countPolls (Event.init i :: l) = countPolls l := by
  simp [countPolls, List.countP_cons]

theorem countPolls_append (l1 l2 : List Event) :
    countPolls (l1 ++ l2) = countPolls l1 + countPolls l2 := by
  simp [countPolls, List.countP_append]

theorem countInits_cons_poll (j i : Int) (l : List Event) :
    countInits j (Event.poll i :: l) = countInits j l := by
  simp [countInits, List.countP_cons]

theorem countInits_cons_init_eq (j : Int) (l : List Event) :
    countInits j (Event.init j :: l) = countInits j l + 1 := by
  simp [countInits, List.countP_cons]

theorem getAt_bounds {α : Type} (l : List α) (i : Int) (a : α) (h : getAt l i = some a) :
    0 ≤ i ∧ i < (l.length : Int) := by
  unfold getAt at h
  by_cases hi : i < 0
  · rw [if_pos hi] at h
    exact absurd h (by simp)
  · rw [if_neg hi] at h
    have hlt : i.toNat < l.length := by
      by_contra hc
      rw [List.get?_eq_none.2 (by omega)] at h
      cases h
    omega

theorem setIndex_no_poll (b : Block) (i : Int) (r : Block × List Event)
    (h : Block.setIndex b i = some r) : countPolls r.2 = 0 := by
  simp only [Block.setIndex] at h
  split at h
  · injection h with h
    subst h
    rfl
  · split at h
    · exact absurd h (by simp)
    · injection h with h
      subst h
      rfl

theorem jumpTo_no_poll (b : Block) (lbl : Int) (r : Block × List Event × Int)
    (h : Block.jumpTo b lbl = some r) : countPolls r.2.1 = 0 := by
  unfold Block.jumpTo at h
  split at h
  · next i heq =>
      split at h
      · exact absurd h (by simp)
      · next b' ev heq2 =>
          injection h with h
          subst h
          exact setIndex_no_poll b ((i : Int)) (b', ev) heq2
  · injection h with h
    subst h
    rfl

theorem pollAct_no_poll (a : ActKind) (b : Block) (r : Block × List Event × Flow)
    (h : pollAct a b = some r) : countPolls r.2.1 = 0 := by
  cases a with
  | flowConst f =>
      simp only [pollAct] at h
      injection h with h
      subst h
      rfl
  | setIdxThen i f =>
      simp only [pollAct] at h
      split at h
      · exact absurd h (by simp)
      · next b' ev heq =>
          injection h with h
          subst h
          exact setIndex_no_poll b i (b', ev) heq
  | jumpThen l f =>
      simp only [pollAct] at h
      split at h
      · exact absurd h (by simp)
      · next b' ev x heq =>
          injection h with h
          subst h
          exact jumpTo_no_poll b l (b', ev, x) heq
  | label i =>
      simp only [pollAct] at h
      injection h with h
      subst h
      rfl
  | collection l =>
      simp only [pollAct] at h
      injection h with h
      subst h
      rfl

theorem clampIdx_bounds (b : Block) (j : Int) (hlen : 0 < b.actions.length) :
    0 ≤ clampIdx b j ∧ clampIdx b j < (b.actions.length : Int) := by
  simp only [clampIdx]
  by_cases hj : j < 0
  · rw [if_pos hj]
    by_cases h2 : (0 : Int) > (b.actions.length : Int) - 1
    · rw [if_pos h2]
      omega
    · rw [if_neg h2]
      omega
  · rw [if_neg hj]
    by_cases h2 : j > (b.actions.length : Int) - 1
    · rw [if_pos h2]
      omega
    · rw [if_neg h2]
      omega

theorem setIndex_clamped (b : Block) (j : Int) (hlen : 0 < b.actions.length)
    (hne : b.index ≠ clampIdx b j) :
    Block.setIndex b j =
      some ({ b with
              index := clampIdx b j,
              currentFrame := 0,
              indexChanged := if b.currentlyActive then true else b.indexChanged },
            [Event.init (clampIdx b j)]) := by
  obtain ⟨h0, h1⟩ := clampIdx_bounds b j hlen
  obtain ⟨a, ha⟩ := getAt_isSome b.actions (clampIdx b j) h0 h1
  simp only [Block.setIndex]
  rw [if_neg hne, ha]

theorem flowNextAdvance_false (b : Block) (h : b.indexChanged = false) :
    flowNextAdvance b =
      if b.index + 1 > (b.actions.length : Int) - 1 then
        { b with index := 0, active := false, currentlyActive := false }
      else { b with index := b.index + 1 } := by
  unfold flowNextAdvance
  rw [h]
  rw [if_pos rfl]

theorem update_polls_pos (fuel : Nat) (b : Block) (r : Block × List Event)
    (hact : b.currentlyActive = true) (h : Block.update fuel b = some r) :
    1 ≤ countPolls r.2 := by
  cases fuel with
  | zero => exact absurd h (by simp [Block.update])
  | succ fuel =>
      unfold Block.update at h
      rw [if_neg (by simp [hact])] at h
      dsimp only at h
      cases hga : getAt b.actions b.index with
      | none => rw [hga] at h; exact absurd h (by simp)
      | some a =>
          rw [hga] at h
          dsimp only at h
          cases hpa : pollAct a { b with indexChanged := false } with
          | none => rw [hpa] at h; exact absurd h (by simp)
          | some res =>
              obtain ⟨b1, ev1, p⟩ := res
              rw [hpa] at h
              dsimp only at h
              cases p with
              | next =>
                  dsimp only at h
                  cases hg3 : getAt (flowNextAdvance
                      { b1 with currentFrame := b1.currentFrame + 1 }).actions
                      (flowNextAdvance { b1 with currentFrame := b1.currentFrame + 1 }).index with
                  | none => rw [hg3] at h; exact absurd h (by simp)
                  | some a3 =>
                      rw [hg3] at h
                      dsimp only at h
                      split at h
                      · cases hrec : Block.update fuel
                            { flowNextAdvance { b1 with currentFrame := b1.currentFrame + 1 }
                              with currentFrame := 0 } with
                        | none => rw [hrec] at h; exact absurd h (by simp)
                        | some r2 =>
                            obtain ⟨b5, ev2⟩ := r2
                            rw [hrec] at h
                            dsimp only at h
                            injection h with h
                            subst h
                            simp [countPolls, List.countP_cons, List.countP_append]
                      · injection h with h
                        subst h
                        simp [countPolls, List.countP_cons, List.countP_append]
              | finish =>
                  dsimp only at h
                  cases hg3 : getAt b1.actions 0 with
                  | none => rw [hg3] at h; exact absurd h (by simp)
                  | some a3 =>
                      rw [hg3] at h
                      dsimp only at h
                      injection h with h
                      subst h
                      simp [countPolls, List.countP_cons, List.countP_append]
              | idle =>
                  dsimp only at h
                  split at h
                  · cases hg3 : getAt b1.actions b1.index with
                    | none => rw [hg3] at h; exact absurd h (by simp)
                    | some a3 =>
                        rw [hg3] at h
                        dsimp only at h
                        injection h with h
                        subst h
                        simp [countPolls, List.countP_cons, List.countP_append]
                  · injection h with h
                    subst h
                    simp [countPolls, List.countP_cons, List.countP_append]

theorem update_idle_stay (fuel : Nat) (b : Block)
    (hact : b.currentlyActive = true)
    (hga : getAt b.actions b.index = some (ActKind.flowConst Flow.idle)) :
    Block.update (fuel + 1) b =
      some ({ b with indexChanged := false, currentFrame := b.currentFrame + 1 },
            [Event.poll b.index]) := by
  unfold Block.update
  rw [if_neg (by simp [hact])]
  dsimp only
  rw [hga]
  rfl

/-! ## C1: actions polled per tick -/

/-- C1 counterexample: one `Routine.Update` tick on a single active block
whose first two actions return `FlowNext` polls three distinct actions —
`Block.update` re-invokes itself after an `Advance`, so a tick is not limited
to one poll per block. -/
theorem multi_poll_one_tick_cex :
    Routine.update 10 { blocks := [cexFastForward] } =
      some ({ blocks := [{ cexFFActive with currentFrame := 1, index := 2 }] },
            [[Event.poll 0, Event.init 1, Event.poll 1, Event.init 2, Event.poll 2]]) ∧
    countPolls [Event.poll 0, Event.init 1, Event.poll 1, Event.init 2, Event.poll 2] = 3 :=
  ⟨rfl, rfl⟩

/-- C1 (amended): within one `Block.update` call on an active block, exactly
one action is polled when the current action's poll returns `FlowIdle` or
`FlowFinish`; but when the poll returns `FlowNext` and the advanced block is
still active, `update` re-invokes itself and at least a second action is
polled within the same tick. -/
theorem update_poll_discipline :
    (∀ (fuel : Nat) (b : Block) (a : ActKind) (b1 : Block) (ev1 : List Event) (f : Flow)
        (r : Block × List Event),
        b.currentlyActive = true →
        getAt b.actions b.index = some a →
        pollAct a { b with indexChanged := false } = some (b1, ev1, f) →
        f ≠ Flow.next →
        Block.update (fuel + 1) b = some r →
        countPolls r.2 = 1) ∧
    (∀ (fuel : Nat) (b : Block) (a : ActKind) (b1 : Block) (ev1 : List Event)
        (r : Block × List Event),
        b.currentlyActive = true →
        getAt b.actions b.index = some a →
        pollAct a { b with indexChanged := false } = some (b1, ev1, Flow.next) →
        (flowNextAdvance { b1 with currentFrame := b1.currentFrame + 1 }).active = true →
        (flowNextAdvance { b1 with currentFrame := b1.currentFrame + 1 }).currentlyActive
          = true →
        Block.update (fuel + 1) b = some r →
        2 ≤ countPolls r.2) := by
  constructor
  · intro fuel b a b1 ev1 f r hact hga hpa hf h
    have hev1 := pollAct_no_poll a { b with indexChanged := false } (b1, ev1, f) hpa
    unfold Block.update at h
    rw [if_neg (by simp [hact])] at h
    dsimp only at h
    rw [hga] at h
    dsimp only at h
    rw [hpa] at h
    dsimp only at h
    cases f with
    | next => exact absurd rfl hf
    | finish =>
        dsimp only at h
        cases hg3 : getAt b1.actions 0 with
        | none => rw [hg3] at h; exact absurd h (by simp)
        | some a3 =>
            rw [hg3] at h
            dsimp only at h
            injection h with h
            subst h
            dsimp only
            rw [List.cons_append, countPolls_cons_poll, countPolls_append, hev1]
            rfl
    | idle =>
        dsimp only at h
        split at h
        · cases hg3 : getAt b1.actions b1.index with
          | none => rw [hg3] at h; exact absurd h (by simp)
          | some a3 =>
              rw [hg3] at h
              dsimp only at h
              injection h with h
              subst h
              dsimp only
              rw [List.cons_append, countPolls_cons_poll, countPolls_append, hev1]
              rfl
        · injection h with h
          subst h
          dsimp only
          rw [countPolls_append, hev1]
          rfl
  · intro fuel b a b1 ev1 r hact hga hpa hactv hcur h
    have hev1 := pollAct_no_poll a { b with indexChanged := false } (b1, ev1, Flow.next) hpa
    unfold Block.update at h
    rw [if_neg (by simp [hact])] at h
    dsimp only at h
    rw [hga] at h
    dsimp only at h
    rw [hpa] at h
    dsimp only at h
    cases hg3 : getAt (flowNextAdvance
        { b1 with currentFrame := b1.currentFrame + 1 }).actions
        (flowNextAdvance { b1 with currentFrame := b1.currentFrame + 1 }).index with
    | none => rw [hg3] at h; exact absurd h (by simp)
    | some a3 =>
        rw [hg3] at h
        dsimp only at h
        rw [if_pos hactv] at h
        cases hrec : Block.update fuel
            { flowNextAdvance { b1 with currentFrame := b1.currentFrame + 1 }
              with currentFrame := 0 } with
        | none => rw [hrec] at h; exact absurd h (by simp)
        | some r2 =>
            obtain ⟨b5, ev2⟩ := r2
            rw [hrec] at h
            dsimp only at h
            injection h with h
            subst h
            have hp2 : 1 ≤ countPolls ev2 :=
              update_polls_pos fuel
                { flowNextAdvance { b1 with currentFrame := b1.currentFrame + 1 }
                  with currentFrame := 0 } (b5, ev2) hcur hrec
            dsimp only
            rw [List.cons_append, List.cons_append, countPolls_cons_poll,
                countPolls_append, countPolls_append, hev1]
            have hz : countPolls [Event.init (flowNextAdvance
                { b1 with currentFrame := b1.currentFrame + 1 }).index] = 0 := rfl
            rw [hz]
            omega

/-- Witness for `update_poll_discipline`: a tick on the idling one-action
block polls exactly once, and a tick on the fast-forwarding block polls at
least twice. -/
theorem update_poll_discipline_witness :
    countPolls cexIdleResult.2 = 1 ∧ 2 ≤ countPolls cexFFResult.2 :=
  ⟨update_poll_discipline.1 0 cexIdleBlock (ActKind.flowConst Flow.idle)
      { cexIdleBlock with indexChanged := false } [] Flow.idle cexIdleResult
      rfl rfl rfl (by decide) rfl,
   update_poll_discipline.2 9 cexFFActive (ActKind.flowConst Flow.next)
      { cexFFActive with indexChanged := false } [] cexFFResult
      rfl rfl rfl rfl rfl rfl⟩

/-! ## C2: Init calls when an action becomes current -/

/-- C2 counterexample: when the current action repositions the playhead to
slot 1 during its own `Poll` and returns `FlowIdle`, slot 1's `Init` runs
twice in the same tick — once inside `SetIndex` and once again in the
`FlowIdle` branch of `update` — not exactly once as claimed. -/
theorem reposition_double_init_cex :
    Block.update 5 cexReposition = some cexRepositionResult ∧
    countInits 1 cexRepositionResult.2 = 2 :=
  ⟨rfl, rfl⟩

/-- C2 (amended): repeated `Idle` polls of an action that stays current
trigger no `Init` at all; a plain forward advance runs the newly current
action's `Init` exactly once; but an action that repositions the playhead
during its own `Poll` and returns `FlowIdle` causes the newly current
action's `Init` to run twice (once from `SetIndex`, once from the `FlowIdle`
branch of `update`). -/
theorem init_call_discipline :
    (∀ (fuel : Nat) (b : Block),
        b.currentlyActive = true →
        getAt b.actions b.index = some (ActKind.flowConst Flow.idle) →
        Block.update (fuel + 1) b =
          some ({ b with indexChanged := false, currentFrame := b.currentFrame + 1 },
                [Event.poll b.index])) ∧
    (∀ (fuel : Nat) (b : Block) (j : Int) (r : Block × List Event),
        b.currentlyActive = true →
        getAt b.actions b.index = some (ActKind.setIdxThen j Flow.idle) →
        clampIdx b j ≠ b.index →
        Block.update (fuel + 1) b = some r →
        countInits (clampIdx b j) r.2 = 2) ∧
    (∀ (fuel : Nat) (b : Block) (r : Block × List Event),
        b.currentlyActive = true →
        getAt b.actions b.index = some (ActKind.flowConst Flow.next) →
        b.index + 1 ≤ (b.actions.length : Int) - 1 →
        getAt b.actions (b.index + 1) = some (ActKind.flowConst Flow.idle) →
        Block.update (fuel + 1) b = some r →
        countInits (b.index + 1) r.2 = 1) := by
  refine ⟨update_idle_stay, ?_, ?_⟩
  · intro fuel b j r hact hga hne h
    have hlen : 0 < b.actions.length := by
      obtain ⟨h0, h1⟩ := getAt_bounds b.actions b.index _ hga
      omega
    have hset : Block.setIndex { b with indexChanged := false } j =
        some ({ b with
                index := clampIdx b j,
                currentFrame := 0,
                indexChanged := true },
              [Event.init (clampIdx b j)]) := by
      rw [setIndex_clamped { b with indexChanged := false } j hlen (Ne.symm hne)]
      dsimp only
      rw [hact]
      exact rfl
    unfold Block.update at h
    rw [if_neg (by simp [hact])] at h
    dsimp only at h
    rw [hga] at h
    dsimp only at h
    simp only [pollAct] at h
    rw [hset] at h
    dsimp only at h
    cases hg3 : getAt b.actions (clampIdx b j) with
    | none => rw [hg3] at h; exact absurd h (by simp)
    | some a3 =>
        rw [hg3] at h
        dsimp only at h
        injection h with h
        subst h
        simp [countInits, List.countP_cons, List.countP_append]
  · intro fuel b r hact hga hin hga2 h
    unfold Block.update at h
    rw [if_neg (by simp [hact])] at h
    dsimp only at h
    rw [hga] at h
    dsimp only at h
    simp only [pollAct] at h
    rw [flowNextAdvance_false
        { b with indexChanged := false, currentFrame := b.currentFrame + 1 } rfl] at h
    dsimp only at h
    rw [if_neg (by omega)] at h
    dsimp only at h
    rw [hga2] at h
    dsimp only at h
    by_cases hba : b.active = true
    · rw [if_pos hba] at h
      cases fuel with
      | zero =>
          simp only [Block.update] at h
          exact Option.noConfusion h
      | succ fuel =>
          rw [update_idle_stay fuel
              { b with indexChanged := false, currentFrame := 0, index := b.index + 1 }
              hact hga2] at h
          dsimp only at h
          injection h with h
          subst h
          simp [countInits, List.countP_cons, List.countP_append]
    · rw [if_neg hba] at h
      injection h with h
      subst h
      simp [countInits, List.countP_cons, List.countP_append]

/-- Witness for `init_call_discipline`: the idling block ticks with no
`Init`, the repositioning block double-initializes slot 1, and the advancing
block initializes slot 1 exactly once. -/
theorem init_call_discipline_witness :
    Block.update (0 + 1) cexIdleBlock =
      some ({ cexIdleBlock with
              indexChanged := false,
              currentFrame := cexIdleBlock.currentFrame + 1 },
            [Event.poll cexIdleBlock.index]) ∧
    countInits (clampIdx cexReposition 1) cexRepositionResult.2 = 2 ∧
    countInits (cexAdvance.index + 1) cexAdvanceResult.2 = 1 :=
  ⟨init_call_discipline.1 0 cexIdleBlock rfl rfl,
   init_call_discipline.2.1 4 cexReposition 1 cexRepositionResult rfl rfl (by decide) rfl,
   init_call_discipline.2.2 4 cexAdvance cexAdvanceResult rfl rfl (by decide) rfl rfl⟩

end RoutinePkg
